import Mathlib

/-!
Verification of the Web-Archiver backend (`src/backend/server.js`).

The development shallowly embeds the crawl-and-archive engine:

* `parseURL` / `resolveURL` are a minimal executable model of the Node
  WHATWG `URL` library (`new URL(s)` resp. `new URL(href, base)`) at the
  granularity the engine uses: scheme, hostname, pathname, serialization.
* `sanitizeFilename`, `isSameDomain`, `getArchiveDir` embed the utility
  functions of the same names.
* `downloadResource`, `processHtmlContent`, `archivePage` embed the asset
  downloader, the content processor and the crawl orchestrator.  Network
  responses are supplied by oracle functions (`String → Option _`); the
  filesystem is modelled as always accepting writes except where a claim
  is about filesystem failure, in which case the outcome is an explicit
  `Except` parameter.
* Markup is modelled as its parsed form (`Html`): the attribute lists the
  engine reads through cheerio, plus the raw text whose length the engine
  uses as the page size.

JavaScript evaluation details that matter are modelled explicitly and
documented at the definitions concerned (run-to-completion semantics for
the unawaited asset callbacks, truthiness tests on attribute strings,
`Array.prototype.slice`, `[...new Set(xs)]`, `Math.round`).
-/

namespace WebArchiver

/-- Parsed URL record: the projection of a WHATWG `URL` object onto the
fields the engine reads (`hostname`, `pathname`) plus the scheme needed
for serialization. -/
structure UrlRec where
  scheme : String
  host : String
  path : String
deriving DecidableEq, Repr

/-- Models `URL#toString()` for the records produced by `parseURL`. -/
def UrlRec.render (u : UrlRec) : String :=
  u.scheme ++ "://" ++ u.host ++ u.path

/-- Kernel-reducible model of `String#startsWith`: does the second list
lead the first? -/
def charsLeadWith : List Char → List Char → Bool
  | _, [] => true
  | [], _ :: _ => false
  | c :: cs, p :: ps => p == c && charsLeadWith cs ps

/-- `s.startsWith p`, computed structurally on the character lists. -/
def strStartsWith (s p : String) : Bool :=
  charsLeadWith s.data p.data

/-- Kernel-reducible model of splitting on a separator character, as
`String#split('/')` does: `splitOnChar '/' "a/b".data = [[a],[b]]`. -/
def splitOnChar (sep : Char) : List Char → List (List Char)
  | [] => [[]]
  | c :: cs =>
    if c = sep then [] :: splitOnChar sep cs
    else
      match splitOnChar sep cs with
      | [] => [[c]]
      | h :: t => (c :: h) :: t

/-- Joins character-list segments with `/`, the inverse of
`splitOnChar '/'`. -/
def joinWithSlash : List (List Char) → List Char
  | [] => []
  | [x] => x
  | x :: xs => x ++ '/' :: joinWithSlash xs

/-- Minimal executable model of WHATWG `new URL(s)` for absolute
`scheme://host/path` URLs: the scheme runs to the first `:`, which must
be followed by `//`, then the hostname runs to the next `/`, and the rest
is the pathname.  `none` models the `TypeError` thrown on input with no
scheme separator or an empty host.  As in WHATWG, the pathname of
`scheme://host` is `/`. -/
def parseURL (s : String) : Option UrlRec :=
  let sch := s.data.takeWhile (· ≠ ':')
  match s.data.dropWhile (· ≠ ':') with
  | ':' :: '/' :: '/' :: r =>
    if sch = [] then none
    else
      let host := r.takeWhile (· ≠ '/')
      let path := r.dropWhile (· ≠ '/')
      if host = [] then none
      else some ⟨⟨sch⟩, ⟨host⟩, if path = [] then "/" else ⟨path⟩⟩
  | _ => none

/-- The leading-directory part of a pathname, used for relative
resolution: everything up to and including the final `/`. -/
def dirPart (p : String) : String :=
  ⟨joinWithSlash (splitOnChar '/' p.data).dropLast ++ ['/']⟩

/-- Does a string carry the `scheme://` shape of an absolute URL? -/
def looksAbsolute (s : String) : Bool :=
  match s.data.dropWhile (· ≠ ':') with
  | ':' :: '/' :: '/' :: _ => true
  | _ => false

/-- Minimal executable model of WHATWG `new URL(href, base)`: an absolute
`href` stands alone, and an absolute-looking `href` whose host part is
unparseable (such as `http://`) is a `TypeError` — it is not re-read as
relative; an empty `href` resolves to the base; a root-relative `href`
replaces the base's path; a fragment reference keeps the base (fragments
are not tracked); any other relative reference resolves against the
base's directory.  `none` models the `TypeError`, also thrown when the
base itself does not parse. -/
def resolveURL (href base : String) : Option UrlRec :=
  match parseURL href with
  | some u => some u
  | none =>
    if looksAbsolute href then none
    else
      match parseURL base with
      | none => none
      | some b =>
        if href = "" then some b
        else if strStartsWith href "/" then some { b with path := href }
        else if strStartsWith href "#" then some b
        else some { b with path := dirPart b.path ++ href }

/-- The hostname of a URL string, when it parses. -/
def hostOf (s : String) : Option String :=
  (parseURL s).map UrlRec.host

/-- Embeds `isValidUrl` (server.js lines 32-39): `new URL(string)`
succeeds. -/
def isValidUrl (s : String) : Bool :=
  (parseURL s).isSome

/-- Embeds `isSameDomain` (server.js lines 41-49): parse both strings and
compare hostnames; any parse failure yields `false`. -/
def isSameDomain (url1 url2 : String) : Bool :=
  match parseURL url1, parseURL url2 with
  | some u1, some u2 => u1.host == u2.host
  | _, _ => false

/-- The character class kept by the sanitizer's regex `[^a-z0-9.-]/gi`:
ASCII letters (both cases via the `i` flag), digits, dot, hyphen. -/
def keepChar (c : Char) : Bool :=
  c.isAlpha || c.isDigit || c == '.' || c == '-'

/-- Embeds `sanitizeFilename` (server.js lines 24-26):
`filename.replace(/[^a-z0-9.-]/gi, '_')`. -/
def sanitizeFilename (filename : String) : String :=
  ⟨filename.data.map (fun c => if keepChar c then c else '_')⟩

/-- Embeds the filename derivation of `downloadResource` (server.js
line 63): `urlObj.pathname === '/' ? 'index.html' : urlObj.pathname`,
then sanitized. -/
def deriveAssetFilename (pathname : String) : String :=
  sanitizeFilename (if pathname = "/" then "index.html" else pathname)

/-- Models `pathname.split('/').pop() || 'page.html'` (server.js
line 186): the last `/`-separated segment, with the empty string (falsy)
replaced by `page.html`. -/
def lastSegmentOrPage (p : String) : String :=
  let last : List Char := ((splitOnChar '/' p.data).getLast?).getD []
  if last = [] then "page.html" else ⟨last⟩

/-- Embeds the page filename derivation of `archivePage` (server.js
line 186). -/
def derivePageFilename (pathname : String) : String :=
  sanitizeFilename (if pathname = "/" then "index.html" else lastSegmentOrPage pathname)

/-- Embeds `getArchiveDir` (server.js lines 28-30), relative to the
server directory. -/
def getArchiveDir (archiveId : String) : String :=
  "archives/" ++ archiveId

/-- Models `path.basename`. -/
def basename (p : String) : String :=
  (((splitOnChar '/' p.data).getLast?).map (fun l => (⟨l⟩ : String))).getD p

/-- Models `path.join` of two nonempty relative segments. -/
def joinPath (a b : String) : String :=
  if a = "" then b else a ++ "/" ++ b

/-- Models `[...new Set(xs)]` (server.js line 159): removes duplicates,
keeping first occurrences in order. -/
def jsSetDedup (xs : List String) : List String :=
  xs.foldl (fun acc x => if x ∈ acc then acc else acc ++ [x]) []

/-- The link-collection loop of `processHtmlContent` (server.js lines
91-103): for each `a[href]` element, cheerio's truthiness test skips an
empty `href`; fragment-only, `mailto:` and `tel:` prefixes are skipped;
the reference is resolved against the page URL and kept exactly when
`isSameDomain` accepts it; a resolution failure is silently skipped. -/
def collectLinks (anchors : List String) (baseUrl : String) : List String :=
  anchors.foldl (fun acc href =>
    if href != "" && !strStartsWith href "#" && !strStartsWith href "mailto:" && !strStartsWith href "tel:" then
      match resolveURL href baseUrl with
      | some u => if isSameDomain u.render baseUrl then acc ++ [u.render] else acc
      | none => acc
    else acc) []

/-- The link list `processHtmlContent` returns (server.js line 159):
collected same-domain links with duplicates removed. -/
def extractLinks (anchors : List String) (baseUrl : String) : List String :=
  jsSetDedup (collectLinks anchors baseUrl)

/-- One page in its parsed form: the raw markup text (whose length the
engine records as the page size) and the attribute lists the processor
reads through cheerio: `a[href]`, `link[rel=stylesheet]` hrefs,
`script[src]` srcs, `img[src]` srcs, in document order. -/
structure Html where
  raw : String
  anchors : List String
  stylesheets : List String
  scripts : List String
  images : List String
deriving DecidableEq, Repr

/-- The record `archivePage` builds per page (server.js lines 192-197),
without the wall-clock `timestamp` (an external input no claim
concerns). -/
structure PageRecord where
  url : String
  filename : String
  size : Nat
deriving DecidableEq, Repr

/-- The asset records `processHtmlContent` pushes (server.js lines 114,
117, 131, 134, 148, 151).  The pushed object literals carry `type`, `url`
and `status` only; `size` models the optional `size` key the summation
code later reads with `asset.size || 0` — it is included to express that
the pushed records never populate it. -/
structure AssetRecord where
  type : String
  url : String
  status : String
  size : Option Nat
deriving DecidableEq, Repr

/-- The success payload of `downloadResource` (server.js lines 72-77). -/
structure DownloadOk where
  localPath : String
  contentType : String
  size : Nat
deriving DecidableEq, Repr

/-- Result of `downloadResource`: the success object or the caught
error's message (server.js line 80). -/
inductive DownloadResult where
  | success (r : DownloadOk)
  | failure (error : String)
deriving DecidableEq, Repr

/-- Embeds `downloadResource` (server.js lines 52-82).  `dl` is the
network oracle for `axios.get`: `some (contentType, byteLength)` on a 2xx
response, `none` for a network/timeout/HTTP error.  The directory
creation and file write are modelled as succeeding.  Either a request
failure or a `new URL(url)` failure lands in the catch block and yields
`failure`; otherwise the sanitized filename is derived from the URL's
pathname (root pathname becoming `index.html`) and the payload is written
under the category subdirectory. -/
def downloadResource (dl : String → Option (String × Nat))
    (url _archiveDir resourcePath : String) : DownloadResult :=
  match dl url with
  | none => .failure "request failed"
  | some (ctype, len) =>
    match parseURL url with
    | none => .failure "Invalid URL"
    | some urlObj =>
      let filename := deriveAssetFilename urlObj.path
      .success ⟨joinPath resourcePath filename, ctype, len⟩

/-- The value `processHtmlContent` returns (server.js lines 156-160). -/
structure ProcResult where
  processedHtml : Html
  assets : List AssetRecord
  links : List String
deriving DecidableEq, Repr

/-- The eventual effect of one asset callback (server.js lines 106-154),
as it would execute if its completion were awaited; the three blocks for
stylesheets, scripts and images are identical up to `category` (the
record's `type` field) and `subdir` (the destination directory and the
rewritten prefix), so they are embedded once.  Given the attribute value,
returns the rewritten attribute (`none` = left unchanged) and the records
pushed: an empty attribute is skipped by the truthiness test; a
`new URL(attr, baseUrl)` failure is caught and pushes a `failed` record
carrying the original attribute; a successful download rewrites the
attribute to the served local path and pushes a `downloaded` record; a
failed download takes the `if (result.success)` branch's absence of an
else: nothing is pushed and nothing is rewritten. -/
def processAssetElem (dl : String → Option (String × Nat))
    (archiveDir baseUrl category subdir : String) (attr : String) :
    Option String × List AssetRecord :=
  if attr = "" then (none, [])
  else
    match resolveURL attr baseUrl with
    | none => (none, [⟨category, attr, "failed", none⟩])
    | some u =>
      match downloadResource dl u.render archiveDir subdir with
      | .success r =>
        (some ("/archives/" ++ basename archiveDir ++ "/" ++ subdir ++ "/" ++ basename r.localPath),
         [⟨category, u.render, "downloaded", none⟩])
      | .failure _ => (none, [])

/-- Embeds `processHtmlContent` (server.js lines 85-161) as it actually
executes.  The link loop (lines 91-103) has a synchronous callback and
completes.  The three asset loops pass `async` callbacks to cheerio's
`each`, which invokes each one synchronously and discards the returned
promise; every such callback suspends at its first `await` (the
`downloadResource` call) before pushing any record or touching any
attribute, and since the enclosing function's own body contains no
`await`, JavaScript's run-to-completion semantics means none of them has
resumed by the time the return statement serializes the markup with
`$.html()`.  The returned value therefore carries the markup unmodified
and an empty asset list; only the link list is populated. -/
def processHtmlContent (html : Html) (baseUrl _archiveDir : String) : ProcResult :=
  ⟨html, [], extractLinks html.anchors baseUrl⟩

/-- Models from the spec's stated requirement (section 4.3) the processor
that `processHtmlContent` was meant to be: the same per-element logic,
but with every download awaited before returning, so the rewrites and
records land in the returned value.  Kept alongside the embedding of the
actual code to state how the two differ. -/
def processHtmlContentJoined (dl : String → Option (String × Nat))
    (html : Html) (baseUrl archiveDir : String) : ProcResult :=
  let css := fun h => processAssetElem dl archiveDir baseUrl "css" "css" h
  let js := fun h => processAssetElem dl archiveDir baseUrl "js" "js" h
  let img := fun h => processAssetElem dl archiveDir baseUrl "image" "images" h
  { processedHtml :=
      { html with
        stylesheets := html.stylesheets.map (fun h => ((css h).1).getD h)
        scripts := html.scripts.map (fun h => ((js h).1).getD h)
        images := html.images.map (fun h => ((img h).1).getD h) }
    assets := (html.stylesheets.map (fun h => (css h).2)).flatten
      ++ (html.scripts.map (fun h => (js h).2)).flatten
      ++ (html.images.map (fun h => (img h).2)).flatten
    links := extractLinks html.anchors baseUrl }

/-- The value `archivePage` returns — the mutated visited set plus the
aggregated `{ pages, assets }` — extended with a ghost `trace` recording,
for each page fetch the call performs (server.js line 174), the URL and
the `currentDepth` at which it was attempted.  The trace is not data the
program computes; it instruments the embedding so that "fetched at most
once" and "fetched at depth at most maxDepth" are statable. -/
structure CrawlStep where
  visited : List String
  pages : List PageRecord
  assets : List AssetRecord
  trace : List (String × Nat)
deriving DecidableEq, Repr

/-- How the recursion loop (server.js lines 202-206) combines an
accumulated result with one recursive call's result: the child's visited
set replaces the accumulator's (the JS `Set` is mutated in place) and
pages, assets and trace are concatenated. -/
def CrawlStep.merge (acc r : CrawlStep) : CrawlStep :=
  ⟨r.visited, acc.pages ++ r.pages, acc.assets ++ r.assets, acc.trace ++ r.trace⟩

/-- Embeds `archivePage` (server.js lines 164-214).  `fetch` is the
network oracle for the page-level `axios.get` (`none` = network, timeout
or non-2xx failure, i.e. a rejected promise).  `fuel` is only a
termination device for Lean: every recursive call raises `currentDepth`
by one and every call with `currentDepth > maxDepth` is a guard return,
so any `fuel ≥ maxDepth + 1 - currentDepth` (as `archivePageRun`
supplies) makes the fuel-exhausted branch unreachable.

Per call: if the URL is already visited or the depth exceeds `maxDepth`,
return an empty result (line 165); otherwise mark the URL visited
(line 169) and fetch it, a failure being caught as an empty result
(lines 210-213).  On success run the processor, derive the page filename
from the fetched URL — the `new URL(url)` on line 185 can itself throw
into the same catch block, after the fetch already happened — persist the
markup (modelled as succeeding), build this node's `PageRecord`, and if
`currentDepth < maxDepth` fold sequentially over the first 10 discovered
links (`links.slice(0, 10)`, line 202) at `currentDepth + 1`, threading
the same visited set. -/
def archivePage (fetch : String → Option Html) :
    Nat → String → String → List String → Nat → Nat → CrawlStep
  | 0, _, _, visited, _, _ => ⟨visited, [], [], []⟩
  | fuel + 1, url, archiveDir, visited, maxDepth, currentDepth =>
    if url ∈ visited ∨ maxDepth < currentDepth then ⟨visited, [], [], []⟩
    else
      let visited1 := visited ++ [url]
      match fetch url with
      | none => ⟨visited1, [], [], [(url, currentDepth)]⟩
      | some html =>
        let pr := processHtmlContent html url archiveDir
        match parseURL url with
        | none => ⟨visited1, [], [], [(url, currentDepth)]⟩
        | some urlObj =>
          let pageRec : PageRecord := ⟨url, derivePageFilename urlObj.path, html.raw.length⟩
          let base : CrawlStep := ⟨visited1, [pageRec], pr.assets, [(url, currentDepth)]⟩
          if currentDepth < maxDepth then
            (pr.links.take 10).foldl
              (fun acc link =>
                acc.merge (archivePage fetch fuel link archiveDir acc.visited maxDepth (currentDepth + 1)))
              base
          else base

/-- A crawl run as the create-archive route starts it (server.js
line 240): empty visited set, depth 0, with the defaults of line 164
(`maxDepth = 2`) made explicit, and enough fuel for the whole depth
range. -/
def archivePageRun (fetch : String → Option Html) (url archiveDir : String)
    (maxDepth : Nat) : CrawlStep :=
  archivePage fetch (maxDepth + 1) url archiveDir [] maxDepth 0

example : parseURL "http://a.com/" = some ⟨"http", "a.com", "/"⟩ := by decide
example : parseURL "http://a.com" = some ⟨"http", "a.com", "/"⟩ := by decide
example : parseURL "http://a.com/x/y" = some ⟨"http", "a.com", "/x/y"⟩ := by decide
example : parseURL "/style.css" = none := by decide
example : resolveURL "/style.css" "http://a.com/" = some ⟨"http", "a.com", "/style.css"⟩ := by decide
example : resolveURL "p2" "http://a.com/x/p1" = some ⟨"http", "a.com", "/x/p2"⟩ := by decide
example : resolveURL "" "http://a.com/" = some ⟨"http", "a.com", "/"⟩ := by decide
example : sanitizeFilename "/style.css" = "_style.css" := by decide
example : derivePageFilename "/" = "index.html" := by decide
example : derivePageFilename "/a/b.html" = "b.html" := by decide
example : derivePageFilename "/a/" = "page.html" := by decide
example : extractLinks ["/p1", "#top", "mailto:x@a.com", "http://other.com/x", "/p1"] "http://a.com/"
    = ["http://a.com/p1"] := by decide

example :
    processAssetElem (fun _ => some ("text/css", 100)) "archives/abc" "http://a.com/" "css" "css" "/style.css"
    = (some "/archives/abc/css/_style.css", [⟨"css", "http://a.com/style.css", "downloaded", none⟩]) := by
  decide

example :
    processAssetElem (fun _ => none) "archives/abc" "http://a.com/" "image" "images" "/pic.png"
    = (none, []) := by decide

/-- The archive record the create route builds (server.js lines 246-256),
without the wall-clock `timestamp` (an external input no claim
concerns). -/
structure Archive where
  id : String
  url : String
  status : String
  pagesArchived : Nat
  assetsArchived : Nat
  totalSize : String
  pages : List PageRecord
  assets : List AssetRecord
deriving DecidableEq, Repr

/-- The total-size computation of the create route (server.js lines
243-244): `result.pages.reduce((sum, page) => sum + page.size, 0) +
result.assets.reduce((sum, asset) => sum + (asset.size || 0), 0)` — an
asset record without a `size` key contributes `0`. -/
def computeTotalSize (pages : List PageRecord) (assets : List AssetRecord) : Nat :=
  pages.foldl (fun sum page => sum + page.size) 0
    + assets.foldl (fun sum asset => sum + asset.size.getD 0) 0

/-- Models `Math.round(n / 1024)` on a non-negative integer byte count:
the nearest integer to `n / 1024`, halves rounding up. -/
def roundDiv1024 (n : Nat) : Nat :=
  (2 * n + 1024) / 2048

/-- The `totalSize` field stored on the archive (server.js line 253):
`Math.round(totalSize / 1024) + 'KB'`, a kilobyte string. -/
def totalSizeField (totalBytes : Nat) : String :=
  toString (roundDiv1024 totalBytes) ++ "KB"

/-- Embeds the archive construction of the create route (server.js lines
242-256). -/
def buildArchive (archiveId url : String)
    (pages : List PageRecord) (assets : List AssetRecord) : Archive :=
  let totalBytes := computeTotalSize pages assets
  ⟨archiveId, url, "completed", pages.length, assets.length,
    totalSizeField totalBytes, pages, assets⟩

/-- Models Node's `fs.rmdir(dir, { recursive: true })` (server.js
line 312) on a filesystem modelled as the list of existing paths: the
directory and everything beneath it are removed.  Per Node's documented
recursive-mode semantics, a path that does not exist is not reported as
an error, so the operation always resolves. -/
def rmdirRecursive (fs : List String) (dir : String) : Except String (List String) :=
  Except.ok (fs.filter (fun p => !(p == dir || strStartsWith p (dir ++ "/"))))

/-- Embeds the delete route handler (server.js lines 301-322),
parameterized over the outcome of the filesystem-removal step so that
both its success and its throwing (the catch block on lines 318-321) are
statable.  Returns the HTTP status together with the filesystem and
in-memory index after the request: an unknown id answers 404 before the
try block; a removal failure answers 500 with the index untouched, the
`splice` being unreached; success splices the record out and answers
200. -/
def deleteArchiveHandler (rmdirOp : List String → String → Except String (List String))
    (fs : List String) (archives : List Archive) (id : String) :
    Nat × List String × List Archive :=
  match archives.findIdx? (fun a => a.id == id) with
  | none => (404, fs, archives)
  | some archiveIndex =>
    match rmdirOp fs (getArchiveDir id) with
    | .error _ => (500, fs, archives)
    | .ok fs' => (200, fs', archives.eraseIdx archiveIndex)

section SanityChecks

def fetchW : String → Option Html := fun u =>
  if u = "http://w.com/" then some ⟨"<html><a></html>", ["/p1", "/p1", "http://x.com/z", "#f"], [], [], []⟩
  else if u = "http://w.com/p1" then some ⟨"<html>p1</html>", ["/"], [], [], []⟩
  else none

example :
    (archivePageRun fetchW "http://w.com/" "archives/abc" 2).trace
    = [("http://w.com/", 0), ("http://w.com/p1", 1)] := by decide

example :
    (archivePageRun fetchW "http://w.com/" "archives/abc" 2).pages
    = [⟨"http://w.com/", "index.html", 16⟩, ⟨"http://w.com/p1", "p1", 15⟩] := by decide

end SanityChecks

/-! ### Properties of link extraction -/

lemma dedupFold_spec :
    ∀ (xs acc : List String),
      (∀ y, y ∈ xs.foldl (fun acc x => if x ∈ acc then acc else acc ++ [x]) acc
        ↔ y ∈ acc ∨ y ∈ xs)
      ∧ (acc.Nodup → (xs.foldl (fun acc x => if x ∈ acc then acc else acc ++ [x]) acc).Nodup) := by
  intro xs
  induction xs with
  | nil => intro acc; simp
  | cons x xs ih =>
    intro acc
    constructor
    · intro y
      rw [List.foldl_cons, (ih _).1 y]
      by_cases hx : x ∈ acc
      · simp only [if_pos hx, List.mem_cons]
        constructor
        · tauto
        · rintro (h | rfl | h) <;> tauto
      · simp only [if_neg hx, List.mem_append, List.mem_singleton, List.mem_cons]
        tauto
    · intro hacc
      rw [List.foldl_cons]
      refine (ih _).2 ?_
      by_cases hx : x ∈ acc
      · simpa [if_pos hx] using hacc
      · simp [if_neg hx, List.nodup_append, hacc, hx]

lemma mem_jsSetDedup {y : String} {xs : List String} :
    y ∈ jsSetDedup xs ↔ y ∈ xs := by
  unfold jsSetDedup
  rw [(dedupFold_spec xs []).1 y]
  simp

lemma nodup_jsSetDedup (xs : List String) : (jsSetDedup xs).Nodup :=
  (dedupFold_spec xs []).2 List.nodup_nil

/-- The condition under which the link loop keeps the target derived
from one `a[href]` attribute: a value `y` is emitted for `href` exactly
when `href` is nonempty, not fragment-only, not `mailto:` or `tel:`
prefixed, resolves against the page URL, passes the same-hostname test,
and `y` is its serialization. -/
def linkCond (baseUrl href y : String) : Prop :=
  href ≠ "" ∧ strStartsWith href "#" = false ∧ strStartsWith href "mailto:" = false
    ∧ strStartsWith href "tel:" = false
    ∧ ∃ u, resolveURL href baseUrl = some u ∧ isSameDomain u.render baseUrl = true
      ∧ y = u.render

lemma collectFold_mem (baseUrl : String) :
    ∀ (anchors acc : List String) (y : String),
      y ∈ anchors.foldl (fun acc href =>
        if href != "" && !strStartsWith href "#" && !strStartsWith href "mailto:"
            && !strStartsWith href "tel:" then
          match resolveURL href baseUrl with
          | some u => if isSameDomain u.render baseUrl then acc ++ [u.render] else acc
          | none => acc
        else acc) acc
      ↔ y ∈ acc ∨ ∃ href ∈ anchors, linkCond baseUrl href y := by
  intro anchors
  induction anchors with
  | nil => intro acc y; simp
  | cons h t ih =>
    intro acc y
    rw [List.foldl_cons, ih]
    have step :
        (y ∈ (if h != "" && !strStartsWith h "#" && !strStartsWith h "mailto:"
            && !strStartsWith h "tel:" then
          match resolveURL h baseUrl with
          | some u => if isSameDomain u.render baseUrl then acc ++ [u.render] else acc
          | none => acc
        else acc)) ↔ y ∈ acc ∨ linkCond baseUrl h y := by
      by_cases hc : (h != "" && !strStartsWith h "#" && !strStartsWith h "mailto:"
          && !strStartsWith h "tel:") = true
      · rw [if_pos hc]
        simp only [Bool.and_eq_true, bne_iff_ne, Bool.not_eq_true'] at hc
        obtain ⟨⟨⟨h1, h2⟩, h3⟩, h4⟩ := hc
        cases hr : resolveURL h baseUrl with
        | none =>
          show y ∈ acc ↔ y ∈ acc ∨ linkCond baseUrl h y
          simp only [linkCond, hr]
          constructor
          · tauto
          · rintro (hy | ⟨-, -, -, -, u, hu, -⟩)
            · exact hy
            · cases hu
        | some u =>
          show (y ∈ if isSameDomain u.render baseUrl = true then acc ++ [u.render] else acc)
            ↔ y ∈ acc ∨ linkCond baseUrl h y
          by_cases hs : isSameDomain u.render baseUrl = true
          · rw [if_pos hs]
            simp only [List.mem_append, List.mem_singleton, linkCond, hr]
            constructor
            · rintro (hy | rfl)
              · exact Or.inl hy
              · exact Or.inr ⟨h1, h2, h3, h4, u, rfl, hs, rfl⟩
            · rintro (hy | ⟨-, -, -, -, u', hu', hs', rfl⟩)
              · exact Or.inl hy
              · cases hu'; exact Or.inr rfl
          · rw [if_neg hs]
            simp only [linkCond, hr]
            constructor
            · tauto
            · rintro (hy | ⟨-, -, -, -, u', hu', hs', rfl⟩)
              · exact hy
              · cases hu'; exact absurd hs' hs
      · rw [if_neg hc]
        simp only [Bool.and_eq_true, bne_iff_ne, Bool.not_eq_true'] at hc
        simp only [linkCond]
        constructor
        · tauto
        · rintro (hy | ⟨h1, h2, h3, h4, -⟩)
          · exact hy
          · exact absurd ⟨⟨⟨h1, h2⟩, h3⟩, h4⟩ hc
    rw [step]
    simp only [List.mem_cons]
    constructor
    · rintro ((hy | hcond) | ⟨href, hm, hcond⟩)
      · exact Or.inl hy
      · exact Or.inr ⟨h, Or.inl rfl, hcond⟩
      · exact Or.inr ⟨href, Or.inr hm, hcond⟩
    · rintro (hy | ⟨href, hm | hm, hcond⟩)
      · exact Or.inl (Or.inl hy)
      · subst hm; exact Or.inl (Or.inr hcond)
      · exact Or.inr ⟨href, hm, hcond⟩

lemma mem_extractLinks {anchors : List String} {baseUrl y : String} :
    y ∈ extractLinks anchors baseUrl ↔ ∃ href ∈ anchors, linkCond baseUrl href y := by
  unfold extractLinks collectLinks
  rw [mem_jsSetDedup, collectFold_mem]
  simp

lemma nodup_extractLinks (anchors : List String) (baseUrl : String) :
    (extractLinks anchors baseUrl).Nodup :=
  nodup_jsSetDedup _

lemma sameDomain_of_mem_extractLinks {anchors : List String} {baseUrl y : String}
    (hy : y ∈ extractLinks anchors baseUrl) : isSameDomain y baseUrl = true := by
  obtain ⟨href, -, -, -, -, -, u, -, hs, rfl⟩ := mem_extractLinks.mp hy
  exact hs

lemma isSameDomain_iff_host {a b : String} :
    isSameDomain a b = true ↔ ∃ h, hostOf a = some h ∧ hostOf b = some h := by
  unfold isSameDomain hostOf
  cases parseURL a with
  | none => simp
  | some u1 =>
    cases parseURL b with
    | none => simp
    | some u2 =>
      simp only [Option.map_some', Option.some_inj, beq_iff_eq]
      constructor
      · intro h; exact ⟨u1.host, rfl, h.symm⟩
      · rintro ⟨h, rfl, hb⟩; exact hb.symm

lemma isSameDomain_trans {a b c : String}
    (hab : isSameDomain a b = true) (hbc : isSameDomain b c = true) :
    isSameDomain a c = true := by
  rw [isSameDomain_iff_host] at hab hbc ⊢
  obtain ⟨h, ha, hb⟩ := hab
  obtain ⟨h', hb', hc⟩ := hbc
  rw [hb] at hb'
  exact ⟨h, ha, by simpa [← Option.some_inj.mp hb'] using hc⟩

/-! ### The crawl invariant -/

/-- The URLs a crawl result fetched, in fetch order. -/
def CrawlStep.fetched (s : CrawlStep) : List String :=
  s.trace.map Prod.fst

/-- Invariant of `archivePage` relative to the visited set the call
received and the URL of the page whose link list supplied this subtree:
the returned visited set is the received one extended by exactly the
fetched URLs; no URL is fetched twice; nothing already visited is
fetched; every fetch happens at a depth within `maxDepth`; every
`PageRecord` belongs to a fetched URL; and every fetched URL is either
the node itself or shares its hostname. -/
def CrawlInv (visited0 : List String) (purl : String) (maxDepth : Nat)
    (s : CrawlStep) : Prop :=
  s.visited = visited0 ++ s.fetched
    ∧ s.fetched.Nodup
    ∧ (∀ u ∈ s.fetched, u ∉ visited0)
    ∧ (∀ en ∈ s.trace, en.2 ≤ maxDepth)
    ∧ (∀ p ∈ s.pages, p.url ∈ s.fetched)
    ∧ (∀ u ∈ s.fetched, u = purl ∨ isSameDomain u purl = true)

lemma crawlInv_merge {visited0 : List String} {purl l : String} {maxD : Nat}
    {acc r : CrawlStep}
    (hacc : CrawlInv visited0 purl maxD acc)
    (hr : CrawlInv acc.visited l maxD r)
    (hl : isSameDomain l purl = true) :
    CrawlInv visited0 purl maxD (acc.merge r) := by
  obtain ⟨av, an, anew, ad, ap, ah⟩ := hacc
  obtain ⟨rv, rn, rnew, rd, rp, rh⟩ := hr
  have hmf : (acc.merge r).fetched = acc.fetched ++ r.fetched := by
    simp [CrawlStep.merge, CrawlStep.fetched]
  refine ⟨?_, ?_, ?_, ?_, ?_, ?_⟩
  · show r.visited = visited0 ++ (acc.merge r).fetched
    rw [hmf, rv, av, List.append_assoc]
  · rw [hmf, List.nodup_append]
    refine ⟨an, rn, ?_⟩
    intro u hu hur
    exact rnew u hur (by rw [av]; exact List.mem_append_right _ hu)
  · rw [hmf]
    intro u hu
    rcases List.mem_append.mp hu with h | h
    · exact anew u h
    · intro h0
      exact rnew u h (by rw [av]; exact List.mem_append_left _ h0)
  · show ∀ en ∈ acc.trace ++ r.trace, en.2 ≤ maxD
    intro en hen
    rcases List.mem_append.mp hen with h | h
    · exact ad en h
    · exact rd en h
  · show ∀ p ∈ acc.pages ++ r.pages, p.url ∈ (acc.merge r).fetched
    rw [hmf]
    intro p hp
    rcases List.mem_append.mp hp with h | h
    · exact List.mem_append_left _ (ap p h)
    · exact List.mem_append_right _ (rp p h)
  · rw [hmf]
    intro u hu
    rcases List.mem_append.mp hu with h | h
    · exact ah u h
    · rcases rh u h with rfl | hsd
      · exact Or.inr hl
      · exact Or.inr (isSameDomain_trans hsd hl)

/-- One-step unfolding of `archivePage` at positive fuel. -/
lemma archivePage_succ (fetch : String → Option Html) (fuel : Nat)
    (url archiveDir : String) (visited : List String) (maxD cd : Nat) :
    archivePage fetch (fuel + 1) url archiveDir visited maxD cd
    = if url ∈ visited ∨ maxD < cd then ⟨visited, [], [], []⟩
      else
        match fetch url with
        | none => ⟨visited ++ [url], [], [], [(url, cd)]⟩
        | some html =>
          match parseURL url with
          | none => ⟨visited ++ [url], [], [], [(url, cd)]⟩
          | some urlObj =>
            let pr := processHtmlContent html url archiveDir
            let pageRec : PageRecord := ⟨url, derivePageFilename urlObj.path, html.raw.length⟩
            let base : CrawlStep := ⟨visited ++ [url], [pageRec], pr.assets, [(url, cd)]⟩
            if cd < maxD then
              (pr.links.take 10).foldl
                (fun acc link =>
                  acc.merge (archivePage fetch fuel link archiveDir acc.visited maxD (cd + 1)))
                base
            else base := rfl

lemma crawl_fold (fetch : String → Option Html) (fuel : Nat)
    (archiveDir purl : String) (visited0 : List String) (maxD cd' : Nat)
    (ih : ∀ url visited, CrawlInv visited url maxD
      (archivePage fetch fuel url archiveDir visited maxD cd')) :
    ∀ (links : List String) (acc : CrawlStep),
      (∀ l ∈ links, isSameDomain l purl = true) →
      CrawlInv visited0 purl maxD acc →
      CrawlInv visited0 purl maxD
        (links.foldl
          (fun acc link =>
            acc.merge (archivePage fetch fuel link archiveDir acc.visited maxD cd'))
          acc) := by
  intro links
  induction links with
  | nil => intro acc _ hacc; exact hacc
  | cons l ls ihl =>
    intro acc hls hacc
    rw [List.foldl_cons]
    refine ihl _ (fun x hx => hls x (List.mem_cons_of_mem _ hx)) ?_
    exact crawlInv_merge hacc (ih l acc.visited) (hls l (List.mem_cons_self l ls))

/-- Main invariant: every `archivePage` call satisfies `CrawlInv` with
respect to the visited set it received and its own URL. -/
lemma crawl_master (fetch : String → Option Html) :
    ∀ (fuel : Nat) (url archiveDir : String) (visited : List String) (maxD cd : Nat),
      CrawlInv visited url maxD (archivePage fetch fuel url archiveDir visited maxD cd) := by
  intro fuel
  induction fuel with
  | zero =>
    intro url archiveDir visited maxD cd
    refine ⟨by simp [archivePage, CrawlStep.fetched], ?_, ?_, ?_, ?_, ?_⟩
      <;> simp [archivePage, CrawlStep.fetched]
  | succ fuel ih =>
    intro url archiveDir visited maxD cd
    rw [archivePage_succ]
    by_cases hg : url ∈ visited ∨ maxD < cd
    · rw [if_pos hg]
      refine ⟨by simp [CrawlStep.fetched], ?_, ?_, ?_, ?_, ?_⟩
        <;> simp [CrawlStep.fetched]
    · rw [if_neg hg]
      push_neg at hg
      obtain ⟨hnv, hcd'⟩ := hg
      cases fetch url with
      | none =>
        refine ⟨by simp [CrawlStep.fetched], ?_, ?_, ?_, ?_, ?_⟩
          <;> simp [CrawlStep.fetched, hnv, hcd']
      | some html =>
        cases parseURL url with
        | none =>
          refine ⟨by simp [CrawlStep.fetched], ?_, ?_, ?_, ?_, ?_⟩
            <;> simp [CrawlStep.fetched, hnv, hcd']
        | some urlObj =>
          dsimp only
          have hbase : CrawlInv visited url maxD
              ⟨visited ++ [url], [⟨url, derivePageFilename urlObj.path, html.raw.length⟩],
                (processHtmlContent html url archiveDir).assets, [(url, cd)]⟩ := by
            refine ⟨by simp [CrawlStep.fetched], ?_, ?_, ?_, ?_, ?_⟩
              <;> simp [CrawlStep.fetched, hnv, hcd']
          by_cases hlt : cd < maxD
          · rw [if_pos hlt]
            refine crawl_fold fetch fuel archiveDir url visited maxD (cd + 1)
              (fun u v => ih u archiveDir v maxD (cd + 1)) _ _ ?_ hbase
            intro l hl
            have hl' : l ∈ (processHtmlContent html url archiveDir).links :=
              List.mem_of_mem_take hl
            exact sameDomain_of_mem_extractLinks hl'
          · rw [if_neg hlt]
            exact hbase

/-! ### Further helper lemmas -/

lemma sanitize_char_mem {s : String} {c : Char}
    (hc : c ∈ (sanitizeFilename s).data) :
    c.isAlpha ∨ c.isDigit ∨ c = '.' ∨ c = '-' ∨ c = '_' := by
  simp only [sanitizeFilename] at hc
  obtain ⟨a, -, rfl⟩ := List.mem_map.mp hc
  by_cases hk : keepChar a = true
  · rw [if_pos hk]
    rcases (by simpa [keepChar, Bool.or_eq_true, beq_iff_eq] using hk) with
        ((ha | hd) | hdot) | hdash
    · exact Or.inl ha
    · exact Or.inr (Or.inl hd)
    · exact Or.inr (Or.inr (Or.inl hdot))
    · exact Or.inr (Or.inr (Or.inr (Or.inl hdash)))
  · rw [if_neg hk]
    exact Or.inr (Or.inr (Or.inr (Or.inr rfl)))

lemma pageFold_sum :
    ∀ (pages : List PageRecord) (n : Nat),
      pages.foldl (fun sum page => sum + page.size) n
        = n + (pages.map PageRecord.size).sum := by
  intro pages
  induction pages with
  | nil => intro n; simp
  | cons p ps ih => intro n; simp [ih, Nat.add_assoc]

lemma assetFold_sizeless :
    ∀ (assets : List AssetRecord) (n : Nat),
      (∀ a ∈ assets, a.size = none) →
      assets.foldl (fun sum asset => sum + asset.size.getD 0) n = n := by
  intro assets
  induction assets with
  | nil => intro n _; rfl
  | cons a as ih =>
    intro n hnone
    rw [List.foldl_cons, hnone a (List.mem_cons_self a as)]
    exact ih n (fun x hx => hnone x (List.mem_cons_of_mem _ hx))

lemma processAssetElem_size_none
    (dl : String → Option (String × Nat)) (archiveDir baseUrl category subdir attr : String) :
    ∀ a ∈ (processAssetElem dl archiveDir baseUrl category subdir attr).2, a.size = none := by
  intro a ha
  unfold processAssetElem at ha
  by_cases he : attr = ""
  · simp [he] at ha
  · rw [if_neg he] at ha
    cases hr : resolveURL attr baseUrl with
    | none => simp only [hr] at ha; simp at ha; simp [ha]
    | some u =>
      simp only [hr] at ha
      cases hd : downloadResource dl u.render archiveDir subdir with
      | success r => simp only [hd] at ha; simp at ha; simp [ha]
      | failure msg => simp only [hd] at ha; simp at ha

lemma joined_assets_size_none (dl : String → Option (String × Nat))
    (html : Html) (baseUrl archiveDir : String) :
    ∀ a ∈ (processHtmlContentJoined dl html baseUrl archiveDir).assets, a.size = none := by
  intro a ha
  simp only [processHtmlContentJoined, List.mem_append, List.mem_flatten,
    List.mem_map] at ha
  rcases ha with (⟨l, ⟨h, -, rfl⟩, hal⟩ | ⟨l, ⟨h, -, rfl⟩, hal⟩) | ⟨l, ⟨h, -, rfl⟩, hal⟩ <;>
    exact processAssetElem_size_none _ _ _ _ _ _ a hal

lemma findIdx_none_of_absent {archives : List Archive} {id : String}
    (h : ∀ a ∈ archives, a.id ≠ id) :
    archives.findIdx? (fun a => a.id == id) = none := by
  induction archives with
  | nil => rfl
  | cons a as ih =>
    rw [List.findIdx?_cons]
    have : (a.id == id) = false := beq_eq_false_iff_ne.mpr (h a (List.mem_cons_self a as))
    rw [this]
    simp [ih (fun x hx => h x (List.mem_cons_of_mem _ hx))]

lemma map_getD_none_eq_self {f : String → Option String × List AssetRecord}
    (l : List String) (h : ∀ x ∈ l, (f x).1 = none) :
    l.map (fun x => ((f x).1).getD x) = l := by
  induction l with
  | nil => rfl
  | cons x xs ih =>
    rw [List.map_cons, h x (List.mem_cons_self x xs)]
    rw [ih (fun y hy => h y (List.mem_cons_of_mem _ hy))]
    rfl

/-! ### Claim theorems -/

/-- **C1**: within one crawl run no URL is fetched more than once: the
fetch trace of a run started from an empty visited set has no duplicate
URLs, and any invocation whose URL is already in the visited set returns
the empty result with an empty fetch trace (no fetch is attempted).  The
mechanism is visible in `archivePage`: the URL joins the visited set
before the fetch and before any recursive call. -/
theorem claim_C1_each_url_fetched_at_most_once :
    ∀ (fetch : String → Option Html) (url archiveDir : String) (maxDepth : Nat),
      ((archivePageRun fetch url archiveDir maxDepth).fetched).Nodup
      ∧ (∀ (fuel : Nat) (u : String) (visited : List String) (cd : Nat),
          u ∈ visited →
          archivePage fetch fuel u archiveDir visited maxDepth cd
            = ⟨visited, [], [], []⟩) := by
  intro fetch url archiveDir maxDepth
  refine ⟨(crawl_master fetch _ url archiveDir [] maxDepth 0).2.1, ?_⟩
  intro fuel u visited cd hu
  cases fuel with
  | zero => rfl
  | succ fuel => rw [archivePage_succ, if_pos (Or.inl hu)]

/-- Witness for C1 on a concrete two-page site with a link cycle. -/
theorem claim_C1_witness :
    ((archivePageRun fetchW "http://w.com/" "archives/abc" 2).fetched).Nodup
    ∧ archivePage fetchW 3 "http://w.com/" "archives/abc" ["http://w.com/"] 2 0
      = ⟨["http://w.com/"], [], [], []⟩ :=
  ⟨(claim_C1_each_url_fetched_at_most_once fetchW "http://w.com/" "archives/abc" 2).1,
   (claim_C1_each_url_fetched_at_most_once fetchW "http://w.com/" "archives/abc" 2).2
     3 "http://w.com/" ["http://w.com/"] 0 (by decide)⟩

/-- **C3**: every fetch of a run happens at depth at most `maxDepth`
(recursion passes `currentDepth + 1` and any call beyond the limit is a
guard return), every `PageRecord` of the result belongs to a fetched URL
— so no record lies deeper than `maxDepth` link steps from the root —
the per-node recursion list is `links.take 10`, bounding each page's
recursive children by 10, and a call past the depth limit returns the
empty result. -/
theorem claim_C3_depth_limit_and_fanout_cap :
    ∀ (fetch : String → Option Html) (url archiveDir : String) (maxDepth : Nat),
      (∀ en ∈ (archivePageRun fetch url archiveDir maxDepth).trace, en.2 ≤ maxDepth)
      ∧ (∀ p ∈ (archivePageRun fetch url archiveDir maxDepth).pages,
          p.url ∈ (archivePageRun fetch url archiveDir maxDepth).fetched)
      ∧ (∀ (html : Html) (u d : String),
          ((processHtmlContent html u d).links.take 10).length ≤ 10)
      ∧ (∀ (fuel : Nat) (u : String) (visited : List String) (cd : Nat),
          maxDepth < cd →
          archivePage fetch fuel u archiveDir visited maxDepth cd
            = ⟨visited, [], [], []⟩) := by
  intro fetch url archiveDir maxDepth
  obtain ⟨-, -, -, hdep, hpages, -⟩ := crawl_master fetch (maxDepth + 1) url archiveDir [] maxDepth 0
  refine ⟨hdep, hpages, ?_, ?_⟩
  · intro html u d
    rw [List.length_take]
    exact Nat.min_le_left _ _
  · intro fuel u visited cd hcd
    cases fuel with
    | zero => rfl
    | succ fuel => rw [archivePage_succ, if_pos (Or.inr hcd)]

/-- Witness for C3 on the concrete two-page site. -/
theorem claim_C3_witness :
    (1 : Nat) ≤ 2
    ∧ ("http://w.com/p1" ∈ (archivePageRun fetchW "http://w.com/" "archives/abc" 2).fetched)
    ∧ ((processHtmlContent ⟨"x", ["/a"], [], [], []⟩ "http://w.com/" "d").links.take 10).length ≤ 10
    ∧ archivePage fetchW 1 "http://w.com/x" "archives/abc" [] 2 3 = ⟨[], [], [], []⟩ :=
  have h := claim_C3_depth_limit_and_fanout_cap fetchW "http://w.com/" "archives/abc" 2
  ⟨h.1 ("http://w.com/p1", 1) (by decide),
   h.2.1 ⟨"http://w.com/p1", "p1", 15⟩ (by decide),
   h.2.2.1 ⟨"x", ["/a"], [], [], []⟩ "http://w.com/" "d",
   h.2.2.2 1 "http://w.com/x" [] 3 (by decide)⟩

/-- **C6**: a page fetch failure (rejected promise: network, timeout or
non-2xx) is caught inside `archivePage`: the node yields an empty result
— no `PageRecord`, no assets — with only the visited set and the fetch
trace extended; merging such a result into the sibling fold leaves the
accumulated pages and assets unchanged, so the crawl proceeds with the
remaining siblings and the failure never escapes the recursion (the
embedding is a total function: every call returns a `CrawlStep`). -/
theorem claim_C6_fetch_failure_is_swallowed :
    ∀ (fetch : String → Option Html) (fuel : Nat) (url archiveDir : String)
      (visited : List String) (maxDepth cd : Nat),
      url ∉ visited → cd ≤ maxDepth → fetch url = none →
      archivePage fetch (fuel + 1) url archiveDir visited maxDepth cd
        = ⟨visited ++ [url], [], [], [(url, cd)]⟩
      ∧ (∀ acc : CrawlStep,
          acc.merge ⟨visited ++ [url], [], [], [(url, cd)]⟩
            = ⟨visited ++ [url], acc.pages, acc.assets, acc.trace ++ [(url, cd)]⟩) := by
  intro fetch fuel url archiveDir visited maxDepth cd hnv hle hf
  have hng : ¬(url ∈ visited ∨ maxDepth < cd) := by
    push_neg
    exact ⟨hnv, hle⟩
  constructor
  · rw [archivePage_succ, if_neg hng, hf]
  · intro acc
    simp [CrawlStep.merge]

/-- Witness for C6: a root whose fetch fails yields the empty result. -/
theorem claim_C6_witness :
    archivePage fetchW 3 "http://nope.com/" "archives/abc" [] 2 0
      = ⟨["http://nope.com/"], [], [], [("http://nope.com/", 0)]⟩
    ∧ (CrawlStep.mk ["v"] [⟨"u", "f", 7⟩] [] [("u", 0)]).merge
        ⟨[] ++ ["http://nope.com/"], [], [], [("http://nope.com/", 0)]⟩
      = ⟨[] ++ ["http://nope.com/"], [⟨"u", "f", 7⟩], [], [("u", 0), ("http://nope.com/", 0)]⟩ :=
  have h := claim_C6_fetch_failure_is_swallowed fetchW 2 "http://nope.com/" "archives/abc"
    [] 2 0 (by decide) (by decide) (by decide)
  ⟨h.1, h.2 ⟨["v"], [⟨"u", "f", 7⟩], [], [("u", 0)]⟩⟩

/-- **C4, counterexample to the claim as stated**: an empty `href`
attribute is a hyperlink target that is not fragment-only and not
`mailto:` or `tel:`, resolves against the page URL to the page itself
(same hostname), yet the returned link list omits it: the loop's
truthiness test `if (href && ...)` drops the empty string before any of
the conditions the claim lists are consulted, so the list does not
contain *exactly* the targets the claim characterizes. -/
theorem claim_C4_counterexample :
    resolveURL "" "http://a.com/" = some ⟨"http", "a.com", "/"⟩
    ∧ (UrlRec.render ⟨"http", "a.com", "/"⟩) = "http://a.com/"
    ∧ isSameDomain "http://a.com/" "http://a.com/" = true
    ∧ strStartsWith "" "#" = false
    ∧ strStartsWith "" "mailto:" = false
    ∧ strStartsWith "" "tel:" = false
    ∧ extractLinks [""] "http://a.com/" = [] := by decide

/-- **C4, amended**: the returned link list contains exactly the
*non-empty* hyperlink targets that are not fragment-only and not
`mailto:`/`tel:`-prefixed, resolved to absolute form against the page
URL, whose hostname equals the page's hostname, with duplicates removed;
and across a whole crawl run every fetched URL is either the root itself
or shares a hostname with the page that discovered it, hence
transitively with the root: off-host links are never fetched. -/
theorem claim_C4_link_scoping :
    ∀ (anchors : List String) (baseUrl y : String),
      (y ∈ extractLinks anchors baseUrl
        ↔ ∃ href ∈ anchors, href ≠ ""
            ∧ strStartsWith href "#" = false
            ∧ strStartsWith href "mailto:" = false
            ∧ strStartsWith href "tel:" = false
            ∧ ∃ u, resolveURL href baseUrl = some u ∧ y = u.render
              ∧ ∃ h, hostOf y = some h ∧ hostOf baseUrl = some h)
      ∧ (extractLinks anchors baseUrl).Nodup
      ∧ (∀ (fetch : String → Option Html) (url archiveDir : String) (maxDepth : Nat),
          ∀ u ∈ (archivePageRun fetch url archiveDir maxDepth).fetched,
            u = url ∨ isSameDomain u url = true) := by
  intro anchors baseUrl y
  refine ⟨?_, nodup_extractLinks anchors baseUrl, ?_⟩
  · rw [mem_extractLinks]
    unfold linkCond
    constructor
    · rintro ⟨href, hm, h1, h2, h3, h4, u, hu, hs, rfl⟩
      exact ⟨href, hm, h1, h2, h3, h4, u, hu, rfl, isSameDomain_iff_host.mp hs⟩
    · rintro ⟨href, hm, h1, h2, h3, h4, u, hu, rfl, hh⟩
      exact ⟨href, hm, h1, h2, h3, h4, u, hu, isSameDomain_iff_host.mpr hh, rfl⟩
  · intro fetch url archiveDir maxDepth u hu
    exact (crawl_master fetch (maxDepth + 1) url archiveDir [] maxDepth 0).2.2.2.2.2 u hu

/-- Witness for the amended C4: a relative link is characterized and a
fetched child shares the root's hostname. -/
theorem claim_C4_witness :
    (∃ href ∈ ["/p1"], href ≠ ""
      ∧ strStartsWith href "#" = false
      ∧ strStartsWith href "mailto:" = false
      ∧ strStartsWith href "tel:" = false
      ∧ ∃ u, resolveURL href "http://a.com/" = some u ∧ "http://a.com/p1" = u.render
        ∧ ∃ h, hostOf "http://a.com/p1" = some h ∧ hostOf "http://a.com/" = some h)
    ∧ ("http://w.com/p1" = "http://w.com/"
        ∨ isSameDomain "http://w.com/p1" "http://w.com/" = true) :=
  have h := claim_C4_link_scoping ["/p1"] "http://a.com/" "http://a.com/p1"
  ⟨h.1.mp (by decide),
   h.2.2 fetchW "http://w.com/" "archives/abc" 2 "http://w.com/p1" (by decide)⟩

/-- A one-stylesheet page used to exhibit the unawaited-download bug. -/
def exPage : Html := ⟨"<html>", [], ["/style.css"], [], []⟩

/-- An asset-network oracle on which every download succeeds with 100
bytes of `text/css`. -/
def dlOk : String → Option (String × Nat) := fun _ => some ("text/css", 100)

/-- **C2**: the processor does *not* wait for the downloads it initiates.
On a page with one stylesheet whose download succeeds, the value
`processHtmlContent` returns — fixed at the moment its synchronous body
finishes, before any of the fire-and-forget callbacks has resumed from
its first `await` — has an empty asset list and the markup's remote URL
still in place, even though `downloadResource` succeeds on that asset and
the awaited semantics (`processHtmlContentJoined`, the spec's stated
requirement) would have recorded and rewritten it. -/
theorem claim_C2_processor_returns_before_downloads :
    processHtmlContent exPage "http://a.com/" "archives/abc"
      = ⟨exPage, [], []⟩
    ∧ downloadResource dlOk "http://a.com/style.css" "archives/abc" "css"
      = .success ⟨"css/_style.css", "text/css", 100⟩
    ∧ processHtmlContentJoined dlOk exPage "http://a.com/" "archives/abc"
      = ⟨⟨"<html>", [], ["/archives/abc/css/_style.css"], [], []⟩,
         [⟨"css", "http://a.com/style.css", "downloaded", none⟩], []⟩ := by decide

/-- A one-image page used to exhibit the missing failed-asset record. -/
def exImgPage : Html := ⟨"<p>", [], [], [], ["/pic.png"]⟩

/-- An asset-network oracle on which every download fails. -/
def dlFail : String → Option (String × Nat) := fun _ => none

/-- **C5, counterexample to the claim as stated**: on a page with one
image whose download fails, no AssetRecord at all is emitted — the
success branch `if (result.success) { ... }` has no else, so a failed
`downloadResource` result pushes nothing (the `failed` record in the
catch block is reached only when URL resolution throws).  This holds even
under the awaited semantics; the markup does keep the original remote
URL. -/
theorem claim_C5_counterexample :
    downloadResource dlFail "http://a.com/pic.png" "archives/abc" "images"
      = .failure "request failed"
    ∧ (processHtmlContentJoined dlFail exImgPage "http://a.com/" "archives/abc").assets = []
    ∧ (processHtmlContent exImgPage "http://a.com/" "archives/abc").assets = []
    ∧ (processHtmlContentJoined dlFail exImgPage "http://a.com/" "archives/abc").processedHtml
      = exImgPage := by decide

/-- **C5, amended**: an asset reference whose download fails yields *no*
AssetRecord (a `failed` record is emitted only when resolving the
reference as a URL throws), the original remote URL stays in the markup,
and the failure never aborts the page's processing — the link list, in
particular, is computed regardless of the download oracle. -/
theorem claim_C5_download_failure_handling :
    ∀ (dl : String → Option (String × Nat)) (archiveDir baseUrl category subdir href : String),
      (∀ u msg, resolveURL href baseUrl = some u →
        downloadResource dl u.render archiveDir subdir = .failure msg →
        processAssetElem dl archiveDir baseUrl category subdir href = (none, []))
      ∧ (href ≠ "" → resolveURL href baseUrl = none →
          processAssetElem dl archiveDir baseUrl category subdir href
            = (none, [⟨category, href, "failed", none⟩]))
      ∧ (∀ html : Html,
          (processHtmlContentJoined dl html baseUrl archiveDir).links
            = extractLinks html.anchors baseUrl)
      ∧ (∀ html : Html,
          (∀ h ∈ html.images,
            (processAssetElem dl archiveDir baseUrl "image" "images" h).1 = none) →
          (processHtmlContentJoined dl html baseUrl archiveDir).processedHtml.images
            = html.images) := by
  intro dl archiveDir baseUrl category subdir href
  refine ⟨?_, ?_, ?_, ?_⟩
  · intro u msg hu hd
    unfold processAssetElem
    by_cases he : href = ""
    · rw [if_pos he]
    · rw [if_neg he]
      simp only [hu, hd]
  · intro he hu
    unfold processAssetElem
    rw [if_neg he]
    simp only [hu]
  · intro html; rfl
  · intro html hnone
    show html.images.map
        (fun h => ((processAssetElem dl archiveDir baseUrl "image" "images" h).1).getD h)
      = html.images
    exact map_getD_none_eq_self html.images hnone

/-- Witness for the amended C5 at the concrete failing image. -/
theorem claim_C5_witness :
    processAssetElem dlFail "archives/abc" "http://a.com/" "image" "images" "/pic.png"
      = (none, [])
    ∧ processAssetElem dlFail "archives/abc" "http://a.com/" "css" "css" "http://"
      = (none, [⟨"css", "http://", "failed", none⟩])
    ∧ (processHtmlContentJoined dlFail exImgPage "http://a.com/" "archives/abc").links
      = extractLinks exImgPage.anchors "http://a.com/"
    ∧ (processHtmlContentJoined dlFail exImgPage "http://a.com/" "archives/abc").processedHtml.images
      = exImgPage.images :=
  have h := claim_C5_download_failure_handling dlFail "archives/abc" "http://a.com/"
  ⟨(h "image" "images" "/pic.png").1 ⟨"http", "a.com", "/pic.png"⟩ "request failed"
      (by decide) (by decide),
   (h "css" "css" "http://").2.1 (by decide) (by decide),
   (h "image" "images" "x").2.2.1 exImgPage,
   (h "image" "images" "x").2.2.2 exImgPage (by decide)⟩

/-- Page-record list used in the total-size counterexample. -/
def exPages : List PageRecord := [⟨"http://a.com/", "index.html", 2048⟩]

/-- **C7, counterexample to the claim as stated**: on a crawl whose one
page is 2048 bytes and whose one asset is successfully downloaded at 100
bytes, the computed total is 2048, not 2048 + 100 — the pushed asset
records carry no `size` key, so `asset.size || 0` contributes nothing —
and what is stored is the kilobyte string `"2KB"`, not a byte count. -/
theorem claim_C7_counterexample :
    downloadResource dlOk "http://a.com/style.css" "archives/abc" "css"
      = .success ⟨"css/_style.css", "text/css", 100⟩
    ∧ computeTotalSize exPages
        (processHtmlContentJoined dlOk exPage "http://a.com/" "archives/abc").assets = 2048
    ∧ (2048 : Nat) ≠ 2048 + 100
    ∧ (buildArchive "abc" "http://a.com/" exPages
        (processHtmlContentJoined dlOk exPage "http://a.com/" "archives/abc").assets).totalSize
      = "2KB" := by decide

/-- **C7, amended**: every asset record the processor emits lacks a
`size` field, so the computed byte total equals the sum of the page sizes
alone — successfully downloaded assets contribute nothing — and the
stored `totalSize` is the kilobyte string `Math.round(total/1024) + "KB"`
of that (non-negative) sum. -/
theorem claim_C7_total_size :
    ∀ (dl : String → Option (String × Nat)) (html : Html)
      (baseUrl archiveDir archiveId url : String)
      (pages : List PageRecord) (assets : List AssetRecord),
      (∀ a ∈ (processHtmlContentJoined dl html baseUrl archiveDir).assets, a.size = none)
      ∧ ((∀ a ∈ assets, a.size = none) →
          computeTotalSize pages assets = (pages.map PageRecord.size).sum)
      ∧ (buildArchive archiveId url pages assets).totalSize
        = toString (roundDiv1024 (computeTotalSize pages assets)) ++ "KB" := by
  intro dl html baseUrl archiveDir archiveId url pages assets
  refine ⟨joined_assets_size_none dl html baseUrl archiveDir, ?_, rfl⟩
  intro hnone
  unfold computeTotalSize
  rw [pageFold_sum, assetFold_sizeless assets 0 hnone, Nat.zero_add, Nat.add_zero]

/-- Witness for the amended C7 at the concrete one-page crawl. -/
theorem claim_C7_witness :
    (⟨"css", "http://a.com/style.css", "downloaded", none⟩ : AssetRecord).size = none
    ∧ computeTotalSize exPages [⟨"css", "http://a.com/style.css", "downloaded", none⟩]
      = (exPages.map PageRecord.size).sum
    ∧ (buildArchive "abc" "http://a.com/" exPages
        [⟨"css", "http://a.com/style.css", "downloaded", none⟩]).totalSize
      = toString (roundDiv1024 (computeTotalSize exPages
          [⟨"css", "http://a.com/style.css", "downloaded", none⟩])) ++ "KB" :=
  have h := claim_C7_total_size dlOk exPage "http://a.com/" "archives/abc" "abc"
    "http://a.com/" exPages [⟨"css", "http://a.com/style.css", "downloaded", none⟩]
  ⟨h.1 ⟨"css", "http://a.com/style.css", "downloaded", none⟩ (by decide),
   h.2.1 (by decide),
   h.2.2⟩

/-- **C8**: every character of a sanitized filename is a letter, digit,
dot, hyphen or underscore — the sanitizer maps everything outside the
kept class to underscore — this carries to both derived-filename sites
(asset downloads and persisted pages), and the root pathname `/` yields
`index.html` at both. -/
theorem claim_C8_filenames_filesystem_safe :
    (∀ (filename : String) (c : Char), c ∈ (sanitizeFilename filename).data →
      c.isAlpha ∨ c.isDigit ∨ c = '.' ∨ c = '-' ∨ c = '_')
    ∧ (∀ (pathname : String) (c : Char), c ∈ (deriveAssetFilename pathname).data →
      c.isAlpha ∨ c.isDigit ∨ c = '.' ∨ c = '-' ∨ c = '_')
    ∧ (∀ (pathname : String) (c : Char), c ∈ (derivePageFilename pathname).data →
      c.isAlpha ∨ c.isDigit ∨ c = '.' ∨ c = '-' ∨ c = '_')
    ∧ deriveAssetFilename "/" = "index.html"
    ∧ derivePageFilename "/" = "index.html" := by
  refine ⟨fun _ _ => sanitize_char_mem, fun _ _ => sanitize_char_mem,
    fun _ _ => sanitize_char_mem, by decide, by decide⟩

/-- Witness for C8 at a concrete pathname with characters outside the
safe class. -/
theorem claim_C8_witness :
    ('_'.isAlpha ∨ '_'.isDigit ∨ '_' = '.' ∨ '_' = '-' ∨ '_' = '_')
    ∧ ('q'.isAlpha ∨ 'q'.isDigit ∨ 'q' = '.' ∨ 'q' = '-' ∨ 'q' = '_')
    ∧ deriveAssetFilename "/" = "index.html" :=
  have h := claim_C8_filenames_filesystem_safe
  ⟨h.1 "/a b?.css" '_' (by decide),
   h.2.2.1 "/q=1" 'q' (by decide),
   h.2.2.2.1⟩

/-- **C9**: deleting an id absent from the index answers 404 with
nothing touched (the handler returns before the try block, so no failure
can arise); deleting a present id removes the first matching record from
the index and the archive's directory tree from the filesystem; and
because `fs.rmdir` in recursive mode resolves even when the path does not
exist, an already-absent backing directory still yields a 200 — the
request does not fail. -/
theorem claim_C9_delete_semantics :
    ∀ (fs : List String) (archives : List Archive) (id : String),
      ((∀ a ∈ archives, a.id ≠ id) →
        deleteArchiveHandler rmdirRecursive fs archives id = (404, fs, archives))
      ∧ (∀ archiveIndex, archives.findIdx? (fun a => a.id == id) = some archiveIndex →
          deleteArchiveHandler rmdirRecursive fs archives id
            = (200,
               fs.filter (fun p =>
                 !(p == getArchiveDir id || strStartsWith p (getArchiveDir id ++ "/"))),
               archives.eraseIdx archiveIndex))
      ∧ (getArchiveDir id ∉ fs →
          ∀ archiveIndex, archives.findIdx? (fun a => a.id == id) = some archiveIndex →
          (deleteArchiveHandler rmdirRecursive fs archives id).1 = 200) := by
  intro fs archives id
  refine ⟨?_, ?_, ?_⟩
  · intro habs
    unfold deleteArchiveHandler
    rw [findIdx_none_of_absent habs]
  · intro archiveIndex hfind
    unfold deleteArchiveHandler
    rw [hfind]
    rfl
  · intro _ archiveIndex hfind
    unfold deleteArchiveHandler
    rw [hfind]
    rfl

/-- A concrete archive record for the deletion witnesses. -/
def arcA : Archive := ⟨"a1", "http://a.com/", "completed", 1, 0, "2KB", [], []⟩

/-- Witness for C9: a missing id answers 404; an existing id whose
directory is already absent from the filesystem still answers 200 and
drops the record. -/
theorem claim_C9_witness :
    deleteArchiveHandler rmdirRecursive ["archives/zz"] [arcA] "missing"
      = (404, ["archives/zz"], [arcA])
    ∧ deleteArchiveHandler rmdirRecursive ["archives/zz"] [arcA] "a1"
      = (200,
         (["archives/zz"] : List String).filter (fun p =>
           !(p == getArchiveDir "a1" || strStartsWith p (getArchiveDir "a1" ++ "/"))),
         ([arcA] : List Archive).eraseIdx 0)
    ∧ (deleteArchiveHandler rmdirRecursive ["archives/zz"] [arcA] "a1").1 = 200 :=
  have h := claim_C9_delete_semantics ["archives/zz"] [arcA] "a1"
  ⟨(claim_C9_delete_semantics ["archives/zz"] [arcA] "missing").1 (by decide),
   h.2.1 0 (by decide),
   h.2.2 (by decide) 0 (by decide)⟩

/-- **C10**: when the filesystem-removal step of deleting an existing
archive throws, the handler answers 500 and the in-memory index is
returned unchanged — the `splice` sits after the `await fs.rmdir` inside
the try block, so a rejection skips it. -/
theorem claim_C10_failed_delete_preserves_index :
    ∀ (rmdirOp : List String → String → Except String (List String))
      (fs : List String) (archives : List Archive) (id : String)
      (archiveIndex : Nat) (msg : String),
      archives.findIdx? (fun a => a.id == id) = some archiveIndex →
      rmdirOp fs (getArchiveDir id) = .error msg →
      deleteArchiveHandler rmdirOp fs archives id = (500, fs, archives) := by
  intro rmdirOp fs archives id archiveIndex msg hfind herr
  unfold deleteArchiveHandler
  rw [hfind]
  simp only [herr]

/-- A removal operation that always throws, for the C10 witness. -/
def rmdirBroken : List String → String → Except String (List String) :=
  fun _ _ => .error "EACCES"

/-- Witness for C10 at a concrete one-archive index. -/
theorem claim_C10_witness :
    deleteArchiveHandler rmdirBroken ["archives/a1"] [arcA] "a1"
      = (500, ["archives/a1"], [arcA]) :=
  claim_C10_failed_delete_preserves_index rmdirBroken ["archives/a1"] [arcA] "a1" 0 "EACCES"
    (by decide) rfl

end WebArchiver
